import Mathlib

/-!
Verification of the ETA-analysis shipment-level report pipeline
(`src/steamlit_app.py`): a shallow embedding of the filtering →
deduplication → column-projection pipeline and its KPI computation,
together with theorems settling the specified properties.

Tables are embedded as a list of column names plus rows of cell values;
a cell is a string, a rational number (pandas numeric), or null (NaN).
-/

set_option maxHeartbeats 1000000

namespace ETA

/-- A cell value of the loaded table: a string, a numeric value
(pandas numbers are embedded as rationals), or null (NaN / missing). -/
inductive Val where
  | vStr : String → Val
  | vNum : Rat → Val
  | vNull : Val
deriving DecidableEq

/-- Python `str(...)` applied to a cell, as used by `astype(str)`
(line 108): strings are unchanged; numbers render to their decimal text;
NaN renders to the text "nan". -/
def strOfVal : Val → String
  | .vStr s => s
  | .vNum q => toString q
  | .vNull => "nan"

/-- `pd.to_numeric(..., errors="coerce")` on a single cell: numeric cells
survive, everything else (strings that are not numbers, nulls) becomes
missing. -/
def toNumericVal : Val → Option Rat
  | .vNum q => some q
  | _ => none

/-- A pandas DataFrame: named columns and rows of cells
(row `r` holds the cell for column `cols[j]` at position `j`). -/
structure Table where
  cols : List String
  rows : List (List Val)
deriving DecidableEq

/-- Cell of row `r` in the column named `c` (`df[c]` for one row):
position of `c` among the column names, then that entry of the row. -/
def getCellRow (cols : List String) (r : List Val) (c : String) : Val :=
  match cols.findIdx? (fun x => x == c) with
  | some i => r.getD i .vNull
  | none => .vNull

/-! ### Schema Resolver (lines 16, 32-52) -/

/-- Python `str.upper()` on the ASCII column names: uppercase every
character. -/
def upperStr (s : String) : String := ⟨s.data.map Char.toUpper⟩

/-- Python `str.strip()`: drop leading and trailing whitespace. -/
def trimStr (s : String) : String :=
  ⟨((s.data.dropWhile Char.isWhitespace).reverse.dropWhile Char.isWhitespace).reverse⟩

/-- `df.columns = [c.strip() for c in df.columns]` (line 16). -/
def loadCols (raw : List String) : List String := raw.map (fun c => trimStr c)

/-- The dict comprehension `{c.upper(): c for c in df_raw.columns}`
(line 32): pairs of uppercased key and original name, later entries
winning on lookup. -/
def colsUpper (cols : List String) : List (String × String) :=
  cols.map (fun c => (upperStr c, c))

/-- Python `dict.get k` on an association list built left to right with
later bindings overwriting earlier ones. -/
def dGet (l : List (String × String)) (k : String) : Option String :=
  (l.reverse.find? (fun p => p.1 == k)).map (fun p => p.2)

/-- `BOL = cols.get("BILL_OF_LADING", "BILL_OF_LADING")` (line 35). -/
def resolveBOL (cols : List String) : String :=
  (dGet (colsUpper cols) "BILL_OF_LADING").getD "BILL_OF_LADING"

/-- `cols.get(k, None)` for the optional canonical columns
(lines 36-40). -/
def resolveOpt (cols : List String) (k : String) : Option String :=
  dGet (colsUpper cols) k

/-- `BUCKET_KEYS = [30, 45, 60, 90, 120]` (line 43). -/
def BUCKET_KEYS : List Nat := [30, 45, 60, 90, 120]

/-- `f"COUNT_OF_ACCURATE_PREDICTIONS_{m}_MINS"` (line 47). -/
def countName (m : Nat) : String :=
  "COUNT_OF_ACCURATE_PREDICTIONS_" ++ toString m ++ "_MINS"

/-- `f"ACCURACY_{m}_MINS"` (line 48). -/
def accName (m : Nat) : String := "ACCURACY_" ++ toString m ++ "_MINS"

/-- `count_map` (lines 44-50): defined at `m` iff `m` is a bucket key and
the count column name occurs (case-sensitively) among the columns. -/
def countMapF (cols : List String) (m : Nat) : Option String :=
  if BUCKET_KEYS.contains m && cols.contains (countName m) then
    some (countName m)
  else none

/-- `acc_map` (lines 45-52). -/
def accMapF (cols : List String) (m : Nat) : Option String :=
  if BUCKET_KEYS.contains m && cols.contains (accName m) then
    some (accName m)
  else none

/-- `available_buckets = [m for m in BUCKET_KEYS if (m in count_map and
m in acc_map)]` (line 71). -/
def availableBuckets (cols : List String) : List Nat :=
  BUCKET_KEYS.filter (fun m => (countMapF cols m).isSome && (accMapF cols m).isSome)

/-! ### Row Filter (lines 87-98) -/

/-- The stop-range predicate `(x >= lo) & (x <= hi)` on one cell
(line 95): pandas comparisons against NaN (and any non-numeric cell of a
coerced column) are false. -/
def stopKeep (lo hi : Rat) (v : Val) : Bool :=
  match v with
  | .vNum q => decide (lo ≤ q) && decide (q ≤ hi)
  | _ => false

/-- `Series.isin(selected_lanes)` on one cell (line 98). -/
def laneKeep (lanes : List Val) (v : Val) : Bool := lanes.contains v

/-- Lines 89-95: the stop filter runs only when a range was configured
and the resolved stop column is present; otherwise the table passes
through unchanged. -/
def applyStopFilter (stopCol : Option String) (cfg : Option (Rat × Rat))
    (t : Table) : Table :=
  match cfg, stopCol with
  | some (lo, hi), some c =>
      if t.cols.contains c then
        { cols := t.cols,
          rows := t.rows.filter (fun r => stopKeep lo hi (getCellRow t.cols r c)) }
      else t
  | _, _ => t

/-- Lines 97-98: the lane filter runs only when a lane selection exists
and the resolved lane column is present. -/
def applyLaneFilter (laneCol : Option String) (lanes : Option (List Val))
    (t : Table) : Table :=
  match lanes, laneCol with
  | some L, some c =>
      if t.cols.contains c then
        { cols := t.cols,
          rows := t.rows.filter (fun r => laneKeep L (getCellRow t.cols r c)) }
      else t
  | _, _ => t

/-- The Row Filter stage (lines 87-98): stop filter, then lane filter. -/
def rowFilter (stopCol : Option String) (cfg : Option (Rat × Rat))
    (laneCol : Option String) (lanes : Option (List Val)) (t : Table) : Table :=
  applyLaneFilter laneCol lanes (applyStopFilter stopCol cfg t)

/-! ### Shipment Reducer (lines 106-112) -/

/-- The sort/dedup key of a row: the string form of its cell at the
shipment-identifier column position `i` (after `astype(str)` this is the
cell itself). -/
def rowKeyAt (i : Nat) (r : List Val) : String := strOfVal (r.getD i .vNull)

/-- `df_f[BOL] = df_f[BOL].astype(str)` on one row (line 108). -/
def coerceCol (i : Nat) (r : List Val) : List Val :=
  r.set i (.vStr (strOfVal (r.getD i .vNull)))

/-- Comparison used by `sort_values(by=[BOL])` after string coercion
(line 110): ordinary lexicographic comparison of the identifier strings,
character by character by code point, exactly as Python compares `str`
values. -/
def keyLe (i : Nat) (a b : List Val) : Prop :=
  (rowKeyAt i a).data ≤ (rowKeyAt i b).data

instance (i : Nat) : DecidableRel (keyLe i) :=
  fun a b => inferInstanceAs (Decidable ((rowKeyAt i a).data ≤ (rowKeyAt i b).data))

instance (i : Nat) : IsTotal (List Val) (keyLe i) :=
  ⟨fun a b => le_total (rowKeyAt i a).data (rowKeyAt i b).data⟩

instance (i : Nat) : IsTrans (List Val) (keyLe i) :=
  ⟨fun _ _ _ h h2 => le_trans h h2⟩

/-- `drop_duplicates(subset=[BOL], keep="first")` (line 110): scan the
rows, keeping a row iff its key was not seen before. -/
def dedupGo (i : Nat) : List (List Val) → List String → List (List Val)
  | [], _ => []
  | r :: rs, seen =>
      if rowKeyAt i r ∈ seen then dedupGo i rs seen
      else r :: dedupGo i rs (rowKeyAt i r :: seen)

/-- Lines 108-110 on the row list: coerce the identifier column to
strings, sort by it, keep the first row of each duplicate group. -/
def shipRows (i : Nat) (rows : List (List Val)) : List (List Val) :=
  dedupGo i (List.insertionSort (keyLe i) (rows.map (coerceCol i))) []

/-- The Shipment Reducer (lines 106-112), keyed by the position `i` of
the resolved shipment-identifier column. -/
def shipReduceIdx (i : Nat) (t : Table) : Table :=
  { cols := t.cols, rows := shipRows i t.rows }

/-! ### Report Projector (lines 117-138) -/

/-- One step of the comprehension `[c for c in [...] if c and c in
df_ship.columns]` (line 118): keep a resolved candidate column iff it is
non-`None`, truthy (non-empty), and present in the reduced table. -/
def keepIfPresent (shipCols : List String) (o : Option String) : List String :=
  match o with
  | some c => if !c.isEmpty && shipCols.contains c then [c] else []
  | none => []

/-- The fixed part of the display column list (line 118), built by
filtering the five resolved candidates. -/
def fixedColsOf (rawCols shipCols : List String) : List String :=
  keepIfPresent shipCols (some (resolveBOL rawCols)) ++
  keepIfPresent shipCols (resolveOpt rawCols "CARRIER_NAME") ++
  keepIfPresent shipCols (resolveOpt rawCols "SHIPMENT_LANE") ++
  keepIfPresent shipCols (resolveOpt rawCols "PING_COVERAGE") ++
  keepIfPresent shipCols (resolveOpt rawCols "TOTAL_PREDICTIONS")

/-- `bucket_cols` (lines 121-126): for each selected threshold in the
order given, the count column then the accuracy column, each when its
map has an entry. -/
def bucketColsOf (cols : List String) : List Nat → List String
  | [] => []
  | m :: ms =>
      (countMapF cols m).toList ++ (accMapF cols m).toList ++ bucketColsOf cols ms

/-- `df_ship[show_cols]`: keep exactly the named columns, in order. -/
def projectTable (t : Table) (cs : List String) : Table :=
  { cols := cs, rows := t.rows.map (fun r => cs.map (getCellRow t.cols r)) }

/-! ### KPI Summarizer (lines 141-154) -/

/-- Rendered state of the "Avg Ping Coverage" metric: the sentinel
(em-dash) shown when the column is unavailable, the text "nan" produced
by formatting an undefined (NaN) mean, or a numeric mean value. -/
inductive PingKPI where
  | unavailable : PingKPI
  | nanText : PingKPI
  | value : Rat → PingKPI
deriving DecidableEq

/-- The numeric ping-coverage values of the projected table:
`pd.to_numeric(out[p], errors="coerce")` with NaN entries skipped, as
`Series.mean` does (line 147). -/
def pingNums (out : Table) (p : String) : List Rat :=
  out.rows.filterMap (fun r => toNumericVal (getCellRow out.cols r p))

/-- Lines 145-151: sentinel when `PING_COVERAGE` is unresolved or not a
column of `out`; otherwise the skip-NaN mean, which is NaN (formatted as
the text "nan") when no numeric value remains. -/
def avgPingKPI (ping : Option String) (out : Table) : PingKPI :=
  match ping with
  | none => .unavailable
  | some p =>
      if out.cols.contains p then
        if (pingNums out p).isEmpty then .nanText
        else .value ((pingNums out p).sum / ((pingNums out p).length : Rat))
      else .unavailable

/-! ### The pipeline (lines 87-154) -/

/-- Result of one run: the empty-filter halt (lines 101-103), the
missing-identifier fatal error (lines 114-115), or a report with the
projected table and the three KPIs (lines 135-154). -/
inductive Outcome where
  | noRows : Outcome
  | fatalNoBOL : Outcome
  | report : Table → Nat → PingKPI → Nat → Outcome
deriving DecidableEq

/-- The Row Filter applied with the column names the app resolves from
the raw schema (lines 38, 37, 89-98). -/
def dfFOf (t : Table) (cfg : Option (Rat × Rat)) (lanes : Option (List Val)) :
    Table :=
  rowFilter (resolveOpt t.cols "STOP_NUMBER") cfg
    (resolveOpt t.cols "SHIPMENT_LANE") lanes t

/-- Position of the resolved shipment-identifier column inside the
filtered table's schema (the sort key of line 110). -/
def bolIdxF (t : Table) (cfg : Option (Rat × Rat)) (lanes : Option (List Val)) :
    Nat :=
  (((dfFOf t cfg lanes).cols).findIdx? (fun c => c == resolveBOL t.cols)).getD 0

/-- `df_ship` (lines 106-112). -/
def dfShipOf (t : Table) (cfg : Option (Rat × Rat)) (lanes : Option (List Val)) :
    Table :=
  shipReduceIdx (bolIdxF t cfg lanes) (dfFOf t cfg lanes)

/-- `show_cols = fixed_cols + bucket_cols` (line 128). -/
def showColsOf (t : Table) (cfg : Option (Rat × Rat)) (lanes : Option (List Val))
    (sel : List Nat) : List String :=
  fixedColsOf t.cols (dfShipOf t cfg lanes).cols ++ bucketColsOf t.cols sel

/-- `missing = [c for c in show_cols if c not in df_ship.columns]`
(line 130). -/
def missingOf (t : Table) (cfg : Option (Rat × Rat)) (lanes : Option (List Val))
    (sel : List Nat) : List String :=
  (showColsOf t cfg lanes sel).filter
    (fun c => !((dfShipOf t cfg lanes).cols.contains c))

/-- `out = df_ship[show_cols]` (lines 130-138), after dropping missing
selected columns when any exist. -/
def outOf (t : Table) (cfg : Option (Rat × Rat)) (lanes : Option (List Val))
    (sel : List Nat) : Table :=
  projectTable (dfShipOf t cfg lanes)
    (if (missingOf t cfg lanes sel).isEmpty then showColsOf t cfg lanes sel
     else (showColsOf t cfg lanes sel).filter
       (fun c => (dfShipOf t cfg lanes).cols.contains c))

/-- `df_ship[BOL].nunique()` (line 143): the number of distinct
identifier strings of the reduced table. -/
def shipCountOf (t : Table) (cfg : Option (Rat × Rat)) (lanes : Option (List Val)) :
    Nat :=
  (((dfShipOf t cfg lanes).rows.map (rowKeyAt (bolIdxF t cfg lanes))).dedup).length

/-- The whole pipeline run (lines 87-154) for a loaded table `t`, a
stop-range selection, a lane selection, and a bucket selection. -/
def pipeline (t : Table) (cfg : Option (Rat × Rat)) (lanes : Option (List Val))
    (sel : List Nat) : Outcome :=
  if (dfFOf t cfg lanes).rows.isEmpty then .noRows
  else if (dfFOf t cfg lanes).cols.contains (resolveBOL t.cols) then
    .report (outOf t cfg lanes sel) (shipCountOf t cfg lanes)
      (avgPingKPI (resolveOpt t.cols "PING_COVERAGE") (outOf t cfg lanes sel))
      ((dfFOf t cfg lanes).rows.length)
  else .fatalNoBOL

/-! ### Helper lemmas -/

theorem cols_applyStopFilter (sc : Option String) (cfg : Option (Rat × Rat))
    (t : Table) : (applyStopFilter sc cfg t).cols = t.cols := by
  unfold applyStopFilter
  split
  · split <;> rfl
  · rfl

theorem cols_applyLaneFilter (lc : Option String) (lanes : Option (List Val))
    (t : Table) : (applyLaneFilter lc lanes t).cols = t.cols := by
  unfold applyLaneFilter
  split
  · split <;> rfl
  · rfl

theorem rows_applyStopFilter_sublist (sc : Option String) (cfg : Option (Rat × Rat))
    (t : Table) : List.Sublist (applyStopFilter sc cfg t).rows t.rows := by
  unfold applyStopFilter
  split
  · split
    · exact List.filter_sublist t.rows
    · exact List.Sublist.refl _
  · exact List.Sublist.refl _

theorem rows_applyLaneFilter_sublist (lc : Option String) (lanes : Option (List Val))
    (t : Table) : List.Sublist (applyLaneFilter lc lanes t).rows t.rows := by
  unfold applyLaneFilter
  split
  · split
    · exact List.filter_sublist t.rows
    · exact List.Sublist.refl _
  · exact List.Sublist.refl _

theorem cols_rowFilter (sc : Option String) (cfg : Option (Rat × Rat))
    (lc : Option String) (lanes : Option (List Val)) (t : Table) :
    (rowFilter sc cfg lc lanes t).cols = t.cols := by
  unfold rowFilter
  rw [cols_applyLaneFilter, cols_applyStopFilter]

theorem rows_rowFilter_sublist (sc : Option String) (cfg : Option (Rat × Rat))
    (lc : Option String) (lanes : Option (List Val)) (t : Table) :
    List.Sublist (rowFilter sc cfg lc lanes t).rows t.rows :=
  (rows_applyLaneFilter_sublist _ _ _).trans (rows_applyStopFilter_sublist _ _ _)

theorem cols_dfFOf (t : Table) (cfg : Option (Rat × Rat)) (lanes : Option (List Val)) :
    (dfFOf t cfg lanes).cols = t.cols :=
  cols_rowFilter _ _ _ _ _

theorem cols_dfShipOf (t : Table) (cfg : Option (Rat × Rat)) (lanes : Option (List Val)) :
    (dfShipOf t cfg lanes).cols = t.cols :=
  cols_dfFOf _ _ _

theorem getD_set_self (l : List Val) (i : Nat) (v : Val) (h : i < l.length) :
    (l.set i v).getD i .vNull = v := by
  simp [List.getD, List.getElem?_set_self', h]

theorem rowKeyAt_coerceCol (i : Nat) (r : List Val) :
    rowKeyAt i (coerceCol i r) = rowKeyAt i r := by
  by_cases h : i < r.length
  · unfold rowKeyAt coerceCol
    rw [getD_set_self _ _ _ h]
    rfl
  · unfold coerceCol
    rw [List.set_eq_of_length_le (le_of_not_lt h)]

theorem coerceCol_idem (i : Nat) (r : List Val) :
    coerceCol i (coerceCol i r) = coerceCol i r := by
  by_cases h : i < r.length
  · unfold coerceCol
    rw [getD_set_self _ _ _ h, List.set_set]
    rfl
  · unfold coerceCol
    rw [List.set_eq_of_length_le (le_of_not_lt h),
      List.set_eq_of_length_le (le_of_not_lt h)]

theorem dedupGo_sublist (i : Nat) :
    ∀ (l : List (List Val)) (seen : List String),
      List.Sublist (dedupGo i l seen) l := by
  intro l
  induction l with
  | nil => intro seen; exact List.Sublist.refl _
  | cons r rs ih =>
    intro seen
    unfold dedupGo
    split
    · exact (ih seen).trans (List.sublist_cons_self r rs)
    · exact List.Sublist.cons₂ r (ih _)

theorem mem_key_dedupGo (i : Nat) :
    ∀ (l : List (List Val)) (seen : List String) (k : String),
      (k ∈ (dedupGo i l seen).map (rowKeyAt i) ↔
        k ∈ l.map (rowKeyAt i) ∧ k ∉ seen) := by
  intro l
  induction l with
  | nil => intro seen k; simp [dedupGo]
  | cons r rs ih =>
    intro seen k
    unfold dedupGo
    split
    · rename_i hmem
      rw [ih]
      simp only [List.map_cons, List.mem_cons]
      constructor
      · rintro ⟨h1, h2⟩
        exact ⟨Or.inr h1, h2⟩
      · rintro ⟨h1 | h1, h2⟩
        · exact absurd (h1 ▸ hmem) h2
        · exact ⟨h1, h2⟩
    · rename_i hmem
      simp only [List.map_cons, List.mem_cons]
      constructor
      · rintro (h | h)
        · exact ⟨Or.inl h, h ▸ hmem⟩
        · obtain ⟨h1, h2⟩ := (ih _ k).mp h
          refine ⟨Or.inr h1, fun hk => h2 (List.mem_cons_of_mem _ hk)⟩
      · rintro ⟨h1 | h1, h2⟩
        · exact Or.inl h1
        · by_cases hk : k = rowKeyAt i r
          · exact Or.inl hk
          · refine Or.inr ((ih _ k).mpr ⟨h1, ?_⟩)
            intro hc
            rcases List.mem_cons.mp hc with e | hs
            · exact hk e
            · exact h2 hs

theorem nodup_key_dedupGo (i : Nat) :
    ∀ (l : List (List Val)) (seen : List String),
      ((dedupGo i l seen).map (rowKeyAt i)).Nodup := by
  intro l
  induction l with
  | nil => intro seen; simp [dedupGo]
  | cons r rs ih =>
    intro seen
    unfold dedupGo
    split
    · exact ih seen
    · simp only [List.map_cons, List.nodup_cons]
      refine ⟨fun hmem => ?_, ih _⟩
      have h := (mem_key_dedupGo i rs _ _).mp hmem
      exact h.2 (List.mem_cons_self _ _)

theorem head_filter_dedupGo (i : Nat) :
    ∀ (l : List (List Val)) (seen : List String) (r : List Val),
      r ∈ dedupGo i l seen →
      rowKeyAt i r ∉ seen ∧
        (l.filter (fun x => rowKeyAt i x == rowKeyAt i r)).head? = some r := by
  intro l
  induction l with
  | nil => intro seen r h; simp [dedupGo] at h
  | cons x xs ih =>
    intro seen r h
    unfold dedupGo at h
    split at h
    · rename_i hx
      obtain ⟨h1, h2⟩ := ih seen r h
      refine ⟨h1, ?_⟩
      rw [List.filter_cons]
      have hne : (rowKeyAt i x == rowKeyAt i r) = false := by
        refine beq_eq_false_iff_ne.mpr fun e => h1 (e ▸ hx)
      simp only [hne, Bool.false_eq_true, if_false]
      exact h2
    · rename_i hx
      rcases List.mem_cons.mp h with rfl | h
      · refine ⟨hx, ?_⟩
        rw [List.filter_cons]
        simp
      · obtain ⟨h1, h2⟩ := ih _ r h
        have hne : rowKeyAt i r ≠ rowKeyAt i x :=
          fun e => h1 (e ▸ List.mem_cons_self _ _)
        have h1s : rowKeyAt i r ∉ seen := fun hs => h1 (List.mem_cons_of_mem _ hs)
        refine ⟨h1s, ?_⟩
        rw [List.filter_cons]
        have hne2 : (rowKeyAt i x == rowKeyAt i r) = false :=
          beq_eq_false_iff_ne.mpr fun e => hne e.symm
        simp only [hne2, Bool.false_eq_true, if_false]
        exact h2

theorem dedupGo_eq_self (i : Nat) :
    ∀ (l : List (List Val)) (seen : List String),
      (∀ k ∈ l.map (rowKeyAt i), k ∉ seen) →
      (l.map (rowKeyAt i)).Nodup → dedupGo i l seen = l := by
  intro l
  induction l with
  | nil => intro seen _ _; rfl
  | cons r rs ih =>
    intro seen hdis hnd
    unfold dedupGo
    rw [if_neg (hdis _ (by simp))]
    congr 1
    refine ih _ (fun k hk hc => ?_) (List.nodup_cons.mp (by simpa using hnd)).2
    rcases List.mem_cons.mp hc with e | hs
    · exact (List.nodup_cons.mp (by simpa using hnd)).1 (e ▸ hk)
    · exact hdis k (List.mem_cons_of_mem _ hk) hs

theorem length_dedupGo_nil (i : Nat) (l : List (List Val)) :
    (dedupGo i l []).length = ((l.map (rowKeyAt i)).dedup).length := by
  rw [← List.length_map (dedupGo i l []) (rowKeyAt i),
    ← List.toFinset_card_of_nodup (nodup_key_dedupGo i l []), ← List.card_toFinset]
  congr 1
  refine Finset.ext fun k => ?_
  simp only [List.mem_toFinset]
  rw [mem_key_dedupGo]
  simp

theorem map_key_coerce (i : Nat) (l : List (List Val)) :
    (l.map (coerceCol i)).map (rowKeyAt i) = l.map (rowKeyAt i) := by
  rw [List.map_map]
  exact List.map_congr_left fun r _ => rowKeyAt_coerceCol i r

theorem length_shipRows (i : Nat) (rows : List (List Val)) :
    (shipRows i rows).length = ((rows.map (rowKeyAt i)).dedup).length := by
  unfold shipRows
  rw [length_dedupGo_nil]
  have h2 := (List.perm_insertionSort (keyLe i) (rows.map (coerceCol i))).map (rowKeyAt i)
  have h3 := h2.dedup
  rw [map_key_coerce] at h3
  exact h3.length_eq

theorem mem_key_shipRows (i : Nat) (rows : List (List Val)) (k : String) :
    k ∈ (shipRows i rows).map (rowKeyAt i) ↔ k ∈ rows.map (rowKeyAt i) := by
  unfold shipRows
  rw [mem_key_dedupGo]
  have h2 := (List.perm_insertionSort (keyLe i) (rows.map (coerceCol i))).map (rowKeyAt i)
  rw [h2.mem_iff, map_key_coerce]
  simp

theorem sorted_keyLe_shipRows (i : Nat) (rows : List (List Val)) :
    (shipRows i rows).Pairwise (keyLe i) := by
  have hs : (List.insertionSort (keyLe i) (rows.map (coerceCol i))).Pairwise (keyLe i) :=
    List.sorted_insertionSort (keyLe i) (rows.map (coerceCol i))
  exact hs.sublist (dedupGo_sublist i _ [])

theorem nodup_key_shipRows (i : Nat) (rows : List (List Val)) :
    ((shipRows i rows).map (rowKeyAt i)).Nodup :=
  nodup_key_dedupGo i _ []

theorem sorted_key_shipRows (i : Nat) (rows : List (List Val)) :
    ((shipRows i rows).map (fun r => (rowKeyAt i r).data)).Sorted (· < ·) := by
  rw [List.Sorted, List.pairwise_map]
  have hnd := nodup_key_shipRows i rows
  rw [List.Nodup, List.pairwise_map] at hnd
  refine ((sorted_keyLe_shipRows i rows).and hnd).imp ?_
  rintro a b ⟨h1, h2⟩
  exact lt_of_le_of_ne h1 fun e => h2 (String.ext e)

theorem shipRows_idem (i : Nat) (rows : List (List Val)) :
    shipRows i (shipRows i rows) = shipRows i rows := by
  have hmemc : ∀ r ∈ shipRows i rows, coerceCol i r = r := by
    intro r hr
    have h1 : r ∈ List.insertionSort (keyLe i) (rows.map (coerceCol i)) :=
      (dedupGo_sublist i _ []).subset hr
    have h2 : r ∈ rows.map (coerceCol i) :=
      (List.perm_insertionSort (keyLe i) _).subset h1
    obtain ⟨x, _, rfl⟩ := List.mem_map.mp h2
    exact coerceCol_idem i x
  have hmap : (shipRows i rows).map (coerceCol i) = shipRows i rows := by
    rw [List.map_congr_left hmemc]
    exact List.map_id' _
  have hsorted : (shipRows i rows).Pairwise (keyLe i) := sorted_keyLe_shipRows i rows
  show dedupGo i
      (List.insertionSort (keyLe i) ((shipRows i rows).map (coerceCol i))) [] =
      shipRows i rows
  rw [hmap, List.Sorted.insertionSort_eq hsorted]
  exact dedupGo_eq_self i _ [] (fun k _ => List.not_mem_nil k)
    (nodup_key_shipRows i rows)

theorem stopKeep_eq_true (lo hi : Rat) (v : Val) :
    stopKeep lo hi v = true ↔ ∃ q, v = Val.vNum q ∧ lo ≤ q ∧ q ≤ hi := by
  cases v <;> simp [stopKeep]

theorem laneKeep_eq_true (L : List Val) (v : Val) :
    laneKeep L v = true ↔ v ∈ L := by
  simp [laneKeep]

theorem applyStopFilter_none (sc : Option String) (t : Table) :
    applyStopFilter sc none t = t := by
  cases sc <;> rfl

theorem applyLaneFilter_none (lc : Option String) (t : Table) :
    applyLaneFilter lc none t = t := by
  cases lc <;> rfl

theorem applyStopFilter_some (c : String) (lo hi : Rat) (t : Table)
    (hc : c ∈ t.cols) :
    applyStopFilter (some c) (some (lo, hi)) t =
      ⟨t.cols, t.rows.filter (fun r => stopKeep lo hi (getCellRow t.cols r c))⟩ := by
  have hb : t.cols.contains c = true := by simpa using hc
  simp [applyStopFilter, hb, hc]

theorem applyLaneFilter_some (c : String) (L : List Val) (t : Table)
    (hc : c ∈ t.cols) :
    applyLaneFilter (some c) (some L) t =
      ⟨t.cols, t.rows.filter (fun r => laneKeep L (getCellRow t.cols r c))⟩ := by
  have hb : t.cols.contains c = true := by simpa using hc
  simp [applyLaneFilter, hb, hc]

theorem countMapF_isSome (cols : List String) (m : Nat) :
    (countMapF cols m).isSome = true ↔ m ∈ BUCKET_KEYS ∧ countName m ∈ cols := by
  unfold countMapF
  split
  · rename_i hcond
    simp only [Option.isSome_some, true_iff]
    rw [Bool.and_eq_true] at hcond
    exact ⟨by simpa using hcond.1, by simpa using hcond.2⟩
  · rename_i hcond
    simp only [Option.isSome_none, Bool.false_eq_true, false_iff]
    intro ⟨h1, h2⟩
    exact hcond (by simp [h1, h2])

theorem accMapF_isSome (cols : List String) (m : Nat) :
    (accMapF cols m).isSome = true ↔ m ∈ BUCKET_KEYS ∧ accName m ∈ cols := by
  unfold accMapF
  split
  · rename_i hcond
    simp only [Option.isSome_some, true_iff]
    rw [Bool.and_eq_true] at hcond
    exact ⟨by simpa using hcond.1, by simpa using hcond.2⟩
  · rename_i hcond
    simp only [Option.isSome_none, Bool.false_eq_true, false_iff]
    intro ⟨h1, h2⟩
    exact hcond (by simp [h1, h2])

theorem countMapF_eq_some (cols : List String) (m : Nat) (c : String)
    (h : countMapF cols m = some c) : c = countName m ∧ countName m ∈ cols := by
  unfold countMapF at h
  split at h
  · rename_i hcond
    cases h
    rw [Bool.and_eq_true] at hcond
    exact ⟨rfl, by simpa using hcond.2⟩
  · exact absurd h (by simp)

theorem accMapF_eq_some (cols : List String) (m : Nat) (c : String)
    (h : accMapF cols m = some c) : c = accName m ∧ accName m ∈ cols := by
  unfold accMapF at h
  split at h
  · rename_i hcond
    cases h
    rw [Bool.and_eq_true] at hcond
    exact ⟨rfl, by simpa using hcond.2⟩
  · exact absurd h (by simp)

theorem mem_keepIfPresent (ship : List String) (o : Option String) (c : String)
    (h : c ∈ keepIfPresent ship o) : c ∈ ship := by
  unfold keepIfPresent at h
  split at h
  · split at h
    · rename_i hcond
      rcases List.mem_singleton.mp h with rfl
      rw [Bool.and_eq_true] at hcond
      simpa using hcond.2
    · exact absurd h (List.not_mem_nil c)
  · exact absurd h (List.not_mem_nil c)

theorem mem_fixedColsOf (raw ship : List String) (c : String)
    (h : c ∈ fixedColsOf raw ship) : c ∈ ship := by
  unfold fixedColsOf at h
  simp only [List.mem_append] at h
  rcases h with (((h | h) | h) | h) | h <;> exact mem_keepIfPresent _ _ _ h

theorem mem_bucketColsOf (cols : List String) (sel : List Nat) (c : String)
    (h : c ∈ bucketColsOf cols sel) : c ∈ cols := by
  induction sel with
  | nil => simp [bucketColsOf] at h
  | cons m ms ih =>
    unfold bucketColsOf at h
    simp only [List.mem_append] at h
    rcases h with (h | h) | h
    · obtain ⟨hl, hr⟩ := countMapF_eq_some cols m c (by simpa using h)
      exact hl ▸ hr
    · obtain ⟨hl, hr⟩ := accMapF_eq_some cols m c (by simpa using h)
      exact hl ▸ hr
    · exact ih h

/-! ### Claims -/

/-- C1: whenever the pipeline produces a report, the number of rows of the
final projected table equals the number of distinct shipment-identifier
values (after string coercion) among the rows surviving the Row Filter
stage. -/
theorem report_rows_eq_distinct_shipments (t : Table) (cfg : Option (Rat × Rat))
    (lanes : Option (List Val)) (sel : List Nat) (out : Table) (k : Nat)
    (a : PingKPI) (n : Nat)
    (h : pipeline t cfg lanes sel = Outcome.report out k a n) :
    out.rows.length =
      (((dfFOf t cfg lanes).rows.map (rowKeyAt (bolIdxF t cfg lanes))).dedup).length := by
  unfold pipeline at h
  split at h
  · exact Outcome.noConfusion h
  · split at h
    · injection h with h1 h2 h3 h4
      subst h1
      unfold outOf projectTable
      rw [List.length_map]
      unfold dfShipOf shipReduceIdx
      exact length_shipRows _ _
    · exact Outcome.noConfusion h

/-- Witness for C1 at a concrete three-row table with two distinct
identifiers. -/
theorem report_rows_eq_distinct_shipments_w :
    (⟨["BILL_OF_LADING"], [[Val.vStr "B1"], [Val.vStr "B2"]]⟩ : Table).rows.length =
      (((dfFOf ⟨["BILL_OF_LADING"],
          [[Val.vStr "B2"], [Val.vStr "B1"], [Val.vStr "B1"]]⟩ none none).rows.map
        (rowKeyAt (bolIdxF ⟨["BILL_OF_LADING"],
          [[Val.vStr "B2"], [Val.vStr "B1"], [Val.vStr "B1"]]⟩ none none))).dedup).length :=
  report_rows_eq_distinct_shipments
    ⟨["BILL_OF_LADING"], [[Val.vStr "B2"], [Val.vStr "B1"], [Val.vStr "B1"]]⟩
    none none [] ⟨["BILL_OF_LADING"], [[Val.vStr "B1"], [Val.vStr "B2"]]⟩
    2 PingKPI.unavailable 3 (by decide)

/-- C2: the Shipment Reducer string-coerces the identifier, sorts by it
ascending in lexicographic (code-point) order, and keeps the first row of
the sorted sequence for each distinct identifier: its output keys are
strictly ascending, its key set is exactly the input key set, and every
output row is the head of the group of sorted rows sharing its key. -/
theorem shipment_reducer_spec (i : Nat) (t : Table) :
    ((shipReduceIdx i t).rows.map (fun r => (rowKeyAt i r).data)).Sorted (· < ·) ∧
    (∀ k : String, k ∈ (shipReduceIdx i t).rows.map (rowKeyAt i) ↔
      k ∈ t.rows.map (rowKeyAt i)) ∧
    (∀ r ∈ (shipReduceIdx i t).rows,
      ((List.insertionSort (keyLe i) (t.rows.map (coerceCol i))).filter
        (fun x => rowKeyAt i x == rowKeyAt i r)).head? = some r) := by
  refine ⟨sorted_key_shipRows i t.rows, fun k => mem_key_shipRows i t.rows k, ?_⟩
  intro r hr
  exact (head_filter_dedupGo i _ [] r hr).2

/-- Witness for C2: the retained representative of identifier "B1" is the
head of its sorted duplicate group. -/
theorem shipment_reducer_spec_w :
    ((List.insertionSort (keyLe 0)
        ((⟨["BILL_OF_LADING"], [[Val.vStr "B2"], [Val.vStr "B1"]]⟩ : Table).rows.map
          (coerceCol 0))).filter
      (fun x => rowKeyAt 0 x == rowKeyAt 0 [Val.vStr "B1"])).head? =
      some [Val.vStr "B1"] :=
  (shipment_reducer_spec 0 ⟨["BILL_OF_LADING"], [[Val.vStr "B2"], [Val.vStr "B1"]]⟩).2.2
    [Val.vStr "B1"] (by decide)

/-- C3: the Row Filter keeps a row iff (no stop filter is configured, or
the stop cell is a number inside the inclusive range) and (no lane filter
is configured, or the lane cell is present and belongs to the allowed
set); rows whose referenced cell is missing are excluded by that active
filter, and the surviving rows keep their original relative order. -/
theorem row_filter_spec (t : Table) (sc lc : Option String)
    (cfg : Option (Rat × Rat)) (lanes : Option (List Val))
    (hs : ∀ p, cfg = some p → ∃ c, sc = some c ∧ c ∈ t.cols)
    (hl : ∀ L, lanes = some L → (∃ c, lc = some c ∧ c ∈ t.cols) ∧ Val.vNull ∉ L) :
    List.Sublist (rowFilter sc cfg lc lanes t).rows t.rows ∧
    (∀ r, r ∈ (rowFilter sc cfg lc lanes t).rows ↔ r ∈ t.rows ∧
      (cfg = none ∨ ∃ lo hi c q, cfg = some (lo, hi) ∧ sc = some c ∧
        getCellRow t.cols r c = Val.vNum q ∧ lo ≤ q ∧ q ≤ hi) ∧
      (lanes = none ∨ ∃ L c, lanes = some L ∧ lc = some c ∧
        getCellRow t.cols r c ≠ Val.vNull ∧ getCellRow t.cols r c ∈ L)) := by
  refine ⟨rows_rowFilter_sublist _ _ _ _ _, ?_⟩
  intro r
  rcases cfg with _ | ⟨lo, hi⟩
  · rcases lanes with _ | L
    · rw [rowFilter, applyStopFilter_none, applyLaneFilter_none]
      simp
    · obtain ⟨⟨c, rfl, hcc⟩, hnull⟩ := hl L rfl
      rw [rowFilter, applyStopFilter_none, applyLaneFilter_some c L t hcc]
      simp only [List.mem_filter, laneKeep_eq_true]
      constructor
      · rintro ⟨hmem, hin⟩
        refine ⟨hmem, Or.inl (by trivial), Or.inr ⟨L, c, rfl, rfl, ?_, hin⟩⟩
        intro he
        exact hnull (he ▸ hin)
      · rintro ⟨hmem, -, hlane⟩
        rcases hlane with h | ⟨L2, c2, hL2, hc2, -, hin⟩
        · exact Option.noConfusion h
        · cases hL2
          cases hc2
          exact ⟨hmem, hin⟩
  · obtain ⟨c, rfl, hcc⟩ := hs (lo, hi) rfl
    rcases lanes with _ | L
    · rw [rowFilter, applyLaneFilter_none, applyStopFilter_some c lo hi t hcc]
      simp only [List.mem_filter, stopKeep_eq_true]
      constructor
      · rintro ⟨hmem, q, hq, h1, h2⟩
        exact ⟨hmem, Or.inr ⟨lo, hi, c, q, rfl, rfl, hq, h1, h2⟩, Or.inl (by trivial)⟩
      · rintro ⟨hmem, hstop, -⟩
        rcases hstop with h | ⟨lo2, hi2, c2, q, hpair, hc2, hq, h1, h2⟩
        · exact Option.noConfusion h
        · cases hc2
          injection hpair with hp
          injection hp with hlo hhi
          subst hlo; subst hhi
          exact ⟨hmem, q, hq, h1, h2⟩
    · obtain ⟨⟨c2, rfl, hcc2⟩, hnull⟩ := hl L rfl
      rw [rowFilter, applyStopFilter_some c lo hi t hcc]
      rw [applyLaneFilter_some c2 L
        ⟨t.cols, t.rows.filter (fun r => stopKeep lo hi (getCellRow t.cols r c))⟩ hcc2]
      simp only [List.mem_filter, stopKeep_eq_true, laneKeep_eq_true]
      constructor
      · rintro ⟨⟨hmem, q, hq, h1, h2⟩, hin⟩
        refine ⟨hmem, Or.inr ⟨lo, hi, c, q, rfl, rfl, hq, h1, h2⟩,
          Or.inr ⟨L, c2, rfl, rfl, ?_, hin⟩⟩
        intro he
        exact hnull (he ▸ hin)
      · rintro ⟨hmem, hstop, hlane⟩
        rcases hstop with h | ⟨lo2, hi2, c3, q, hpair, hc3, hq, h1, h2⟩
        · exact Option.noConfusion h
        · cases hc3
          injection hpair with hp
          injection hp with hlo hhi
          subst hlo; subst hhi
          rcases hlane with h | ⟨L2, c4, hL2, hc4, -, hin⟩
          · exact Option.noConfusion h
          · cases hL2
            cases hc4
            exact ⟨⟨hmem, q, hq, h1, h2⟩, hin⟩

/-- Witness for C3: with stop range [5, 6] and lanes {"A"}, the row with
stop 5 and lane "A" is kept. -/
theorem row_filter_spec_w :
    [Val.vNum 5, Val.vStr "A"] ∈
      (rowFilter (some "STOP_NUMBER") (some (5, 6)) (some "SHIPMENT_LANE")
        (some [Val.vStr "A"])
        ⟨["STOP_NUMBER", "SHIPMENT_LANE"],
          [[Val.vNum 5, Val.vStr "A"], [Val.vNull, Val.vStr "A"],
           [Val.vNum 7, Val.vStr "B"]]⟩).rows :=
  ((row_filter_spec
      ⟨["STOP_NUMBER", "SHIPMENT_LANE"],
        [[Val.vNum 5, Val.vStr "A"], [Val.vNull, Val.vStr "A"],
         [Val.vNum 7, Val.vStr "B"]]⟩
      (some "STOP_NUMBER") (some "SHIPMENT_LANE") (some (5, 6))
      (some [Val.vStr "A"])
      (fun p _ => ⟨"STOP_NUMBER", rfl, by decide⟩)
      (fun L hL => ⟨⟨"SHIPMENT_LANE", rfl, by decide⟩, by
        cases hL; decide⟩)).2 [Val.vNum 5, Val.vStr "A"]).mpr
    ⟨by decide,
     Or.inr ⟨5, 6, "STOP_NUMBER", 5, rfl, rfl, by decide, by decide, by decide⟩,
     Or.inr ⟨[Val.vStr "A"], "SHIPMENT_LANE", rfl, rfl, by decide, by decide⟩⟩

/-- C4 counterexample: with both bucket pairs present, the bucket columns
follow the selection order, so selecting [60, 30] yields the 60-pair
before the 30-pair and differs from selecting [30, 60]. -/
theorem bucket_order_cex :
    bucketColsOf
        ["COUNT_OF_ACCURATE_PREDICTIONS_30_MINS", "ACCURACY_30_MINS",
         "COUNT_OF_ACCURATE_PREDICTIONS_60_MINS", "ACCURACY_60_MINS"] [60, 30] =
      ["COUNT_OF_ACCURATE_PREDICTIONS_60_MINS", "ACCURACY_60_MINS",
       "COUNT_OF_ACCURATE_PREDICTIONS_30_MINS", "ACCURACY_30_MINS"] ∧
    bucketColsOf
        ["COUNT_OF_ACCURATE_PREDICTIONS_30_MINS", "ACCURACY_30_MINS",
         "COUNT_OF_ACCURATE_PREDICTIONS_60_MINS", "ACCURACY_60_MINS"] [60, 30] ≠
      bucketColsOf
        ["COUNT_OF_ACCURATE_PREDICTIONS_30_MINS", "ACCURACY_30_MINS",
         "COUNT_OF_ACCURATE_PREDICTIONS_60_MINS", "ACCURACY_60_MINS"] [30, 60] := by
  decide

/-- C4 (amended): the bucket columns render block by block in the
selection list's own order, not in a normalized ascending order: the
output for a concatenation of selections is the concatenation of their
outputs, the block of one threshold is its count column followed by its
accuracy column (each when present), and a sub-selection's columns occur
in the same relative order inside the fuller selection's columns. Hence
the column order is ascending exactly when the selection list itself is
ascending (as the widget's default is), and two selection orders of the
same set can render differently. -/
theorem bucket_cols_follow_selection (cols : List String) :
    (∀ s1 s2 : List Nat,
      bucketColsOf cols (s1 ++ s2) = bucketColsOf cols s1 ++ bucketColsOf cols s2) ∧
    (∀ m : Nat, bucketColsOf cols [m] =
      (countMapF cols m).toList ++ (accMapF cols m).toList) ∧
    (∀ s1 s2 : List Nat, List.Sublist s1 s2 →
      List.Sublist (bucketColsOf cols s1) (bucketColsOf cols s2)) := by
  have happ : ∀ s1 s2 : List Nat,
      bucketColsOf cols (s1 ++ s2) = bucketColsOf cols s1 ++ bucketColsOf cols s2 := by
    intro s1 s2
    induction s1 with
    | nil => rfl
    | cons m ms ih =>
      show (countMapF cols m).toList ++ (accMapF cols m).toList ++
          bucketColsOf cols (ms ++ s2) = _
      rw [ih]
      simp [bucketColsOf, List.append_assoc]
  refine ⟨happ, ?_, ?_⟩
  · intro m
    simp [bucketColsOf]
  · intro s1 s2 hsub
    induction hsub with
    | slnil => exact List.Sublist.refl _
    | cons m hrest ih =>
      exact ih.trans (List.sublist_append_right _ _)
    | cons₂ m hrest ih =>
      exact (ih.append_left _)

/-- Witness for C4 (amended): with both pairs present, the render of
[60] ++ [30] is the 60-block followed by the 30-block, and the columns of
the sub-selection [30] occur in order inside those of [60, 30]. -/
theorem bucket_cols_follow_selection_w :
    bucketColsOf
        ["COUNT_OF_ACCURATE_PREDICTIONS_30_MINS", "ACCURACY_30_MINS",
         "COUNT_OF_ACCURATE_PREDICTIONS_60_MINS", "ACCURACY_60_MINS"]
        ([60] ++ [30]) =
      bucketColsOf
        ["COUNT_OF_ACCURATE_PREDICTIONS_30_MINS", "ACCURACY_30_MINS",
         "COUNT_OF_ACCURATE_PREDICTIONS_60_MINS", "ACCURACY_60_MINS"] [60] ++
      bucketColsOf
        ["COUNT_OF_ACCURATE_PREDICTIONS_30_MINS", "ACCURACY_30_MINS",
         "COUNT_OF_ACCURATE_PREDICTIONS_60_MINS", "ACCURACY_60_MINS"] [30] ∧
    List.Sublist
      (bucketColsOf
        ["COUNT_OF_ACCURATE_PREDICTIONS_30_MINS", "ACCURACY_30_MINS",
         "COUNT_OF_ACCURATE_PREDICTIONS_60_MINS", "ACCURACY_60_MINS"] [30])
      (bucketColsOf
        ["COUNT_OF_ACCURATE_PREDICTIONS_30_MINS", "ACCURACY_30_MINS",
         "COUNT_OF_ACCURATE_PREDICTIONS_60_MINS", "ACCURACY_60_MINS"] [60, 30]) :=
  ⟨(bucket_cols_follow_selection
      ["COUNT_OF_ACCURATE_PREDICTIONS_30_MINS", "ACCURACY_30_MINS",
       "COUNT_OF_ACCURATE_PREDICTIONS_60_MINS", "ACCURACY_60_MINS"]).1 [60] [30],
   (bucket_cols_follow_selection
      ["COUNT_OF_ACCURATE_PREDICTIONS_30_MINS", "ACCURACY_30_MINS",
       "COUNT_OF_ACCURATE_PREDICTIONS_60_MINS", "ACCURACY_60_MINS"]).2.2
     [30] [60, 30] (List.sublist_cons_self 60 [30])⟩

/-- C5: a bucket `m` is available iff `m` is one of the five thresholds
and both members of its column pair occur among the raw column names
after whitespace trimming (matched case-sensitively); a lone member of
the pair never makes the bucket available. -/
theorem bucket_available_iff (raw : List String) (m : Nat) :
    m ∈ availableBuckets (loadCols raw) ↔
      m ∈ BUCKET_KEYS ∧ (∃ c ∈ raw, trimStr c = countName m) ∧
        (∃ c ∈ raw, trimStr c = accName m) := by
  unfold availableBuckets
  rw [List.mem_filter, Bool.and_eq_true, countMapF_isSome, accMapF_isSome]
  unfold loadCols
  simp only [List.mem_map]
  constructor
  · rintro ⟨h0, ⟨-, h1⟩, ⟨-, h2⟩⟩
    exact ⟨h0, h1, h2⟩
  · rintro ⟨h0, h1, h2⟩
    exact ⟨h0, ⟨h0, h1⟩, ⟨h0, h2⟩⟩

/-- Witness for C5: with only `ACCURACY_60_MINS` present, bucket 60 is
not available. -/
theorem bucket_available_iff_w :
    60 ∉ availableBuckets (loadCols ["ACCURACY_60_MINS"]) := by
  intro h
  obtain ⟨-, ⟨c, hc, hcc⟩, -⟩ := (bucket_available_iff ["ACCURACY_60_MINS"] 60).mp h
  rcases List.mem_singleton.mp hc with rfl
  exact absurd hcc (by decide)

/-- C6 counterexample: with the ping-coverage column present but every
value missing, the KPI is the formatted NaN text, not the "unavailable"
sentinel, refuting the claim that the sentinel is reported whenever all
values are missing. -/
theorem avg_ping_all_missing_cex :
    avgPingKPI (some "PING_COVERAGE") ⟨["PING_COVERAGE"], [[Val.vNull]]⟩ =
        PingKPI.nanText ∧
      PingKPI.nanText ≠ PingKPI.unavailable := by
  decide

/-- C6 (amended): the KPI is the "unavailable" sentinel exactly when the
ping-coverage column is unresolved or absent from the projected table;
when the column is present, the KPI is the arithmetic mean of its numeric
values (missing and non-numeric values ignored), except that with no
numeric value at all the undefined mean is rendered as the text "nan"
rather than the sentinel; no case raises an error. -/
theorem avg_ping_spec (ping : Option String) (out : Table) :
    (avgPingKPI ping out = PingKPI.unavailable ↔
      (ping = none ∨ ∃ p, ping = some p ∧ p ∉ out.cols)) ∧
    (∀ p, ping = some p → p ∈ out.cols →
      ((pingNums out p = [] → avgPingKPI ping out = PingKPI.nanText) ∧
       (pingNums out p ≠ [] →
         avgPingKPI ping out =
           PingKPI.value ((pingNums out p).sum / ((pingNums out p).length : Rat))))) := by
  constructor
  · rcases ping with _ | p
    · simp [avgPingKPI]
    · unfold avgPingKPI
      rcases hc : out.cols.contains p with _ | _
      · simp only [hc, Bool.false_eq_true, if_false, true_iff]
        refine Or.inr ⟨p, rfl, ?_⟩
        intro hmem
        have hb : out.cols.contains p = true := by simpa using hmem
        rw [hc] at hb
        exact Bool.noConfusion hb
      · simp only [hc, if_true]
        have hpc : p ∈ out.cols := by simpa using hc
        split
        · simp only [reduceCtorEq, false_iff]
          rintro (h | ⟨p2, hp2, hmem⟩)
          · exact h.elim
          · cases hp2
            exact hmem hpc
        · simp only [reduceCtorEq, false_iff]
          rintro (h | ⟨p2, hp2, hmem⟩)
          · exact h.elim
          · cases hp2
            exact hmem hpc
  · rintro p rfl hpc
    unfold avgPingKPI
    have hc : out.cols.contains p = true := by simpa using hpc
    simp only [hc, if_true]
    constructor
    · intro he
      simp [he]
    · intro hne
      have hie : (pingNums out p).isEmpty = false := by
        simpa [List.isEmpty_iff] using hne
      simp [hie]

/-- Witness for C6 (amended): one numeric value 3 and one missing value
give mean 3. -/
theorem avg_ping_spec_w :
    avgPingKPI (some "P") ⟨["P"], [[Val.vNum 3], [Val.vNull]]⟩ =
      PingKPI.value 3 := by
  have h :=
    ((avg_ping_spec (some "P") ⟨["P"], [[Val.vNum 3], [Val.vNull]]⟩).2 "P" rfl
      (by decide)).2 (by decide)
  have he : pingNums ⟨["P"], [[Val.vNum 3], [Val.vNull]]⟩ "P" = [(3 : Rat)] := rfl
  rw [he] at h
  simpa using h

/-- C7 counterexample: a one-row table with no case variant of the
shipment-identifier column, under a lane filter matching no row, halts in
the "no matching rows" state rather than with the blocking fatal error
the claim requires for every input lacking the identifier column. -/
theorem missing_bol_cex :
    upperStr "SHIPMENT_LANE" ≠ "BILL_OF_LADING" ∧
    pipeline ⟨["SHIPMENT_LANE"], [[Val.vStr "A"]]⟩ none (some [Val.vStr "X"]) [] =
      Outcome.noRows ∧
    pipeline ⟨["SHIPMENT_LANE"], [[Val.vStr "A"]]⟩ none (some [Val.vStr "X"]) [] ≠
      Outcome.fatalNoBOL := by
  decide

/-- C7 (amended): when no column uppercases to `BILL_OF_LADING`, the run
never produces a report: it halts with the blocking fatal error when the
filtered row set is non-empty, and with the earlier "no matching rows"
state when the filters leave nothing. -/
theorem missing_bol_no_report (t : Table) (cfg : Option (Rat × Rat))
    (lanes : Option (List Val)) (sel : List Nat)
    (h : ∀ c ∈ t.cols, upperStr c ≠ "BILL_OF_LADING") :
    pipeline t cfg lanes sel =
      if (dfFOf t cfg lanes).rows.isEmpty then Outcome.noRows
      else Outcome.fatalNoBOL := by
  have hres : resolveBOL t.cols = "BILL_OF_LADING" := by
    unfold resolveBOL dGet colsUpper
    rw [List.find?_eq_none.mpr ?_]
    · rfl
    · intro p hp
      rw [List.mem_reverse] at hp
      obtain ⟨c, hc, rfl⟩ := List.mem_map.mp hp
      simp only [beq_iff_eq]
      exact h c hc
  have hnm : resolveBOL t.cols ∉ (dfFOf t cfg lanes).cols := by
    rw [cols_dfFOf, hres]
    intro hm
    exact h _ hm (by decide)
  simp [pipeline, hnm]

/-- Witness for C7 (amended): a one-column, one-row table with no
identifier column reaches the fatal error. -/
theorem missing_bol_no_report_w :
    pipeline ⟨["X"], [[Val.vStr "a"]]⟩ none none [] = Outcome.fatalNoBOL := by
  have h := missing_bol_no_report ⟨["X"], [[Val.vStr "a"]]⟩ none none []
    (by intro c hc; rcases List.mem_singleton.mp hc with rfl; decide)
  exact h.trans (by decide)

/-- C8: when the Row Filter leaves no rows, the pipeline halts in the
"no matching rows" state; no reduction, projection, or KPI value is
produced. -/
theorem empty_filter_halts (t : Table) (cfg : Option (Rat × Rat))
    (lanes : Option (List Val)) (sel : List Nat)
    (h : (dfFOf t cfg lanes).rows = []) :
    pipeline t cfg lanes sel = Outcome.noRows := by
  simp [pipeline, h]

/-- Witness for C8: a lane filter that matches no row halts the run. -/
theorem empty_filter_halts_w :
    pipeline ⟨["SHIPMENT_LANE"], [[Val.vStr "A"]]⟩ none (some [Val.vStr "B"]) [] =
      Outcome.noRows :=
  empty_filter_halts ⟨["SHIPMENT_LANE"], [[Val.vStr "A"]]⟩ none
    (some [Val.vStr "B"]) [] (by decide)

/-- C9: the Shipment Reducer is idempotent: applying it to its own output
returns that output unchanged (hence the same set of rows). -/
theorem shipment_reducer_idempotent (i : Nat) (t : Table) :
    shipReduceIdx i (shipReduceIdx i t) = shipReduceIdx i t := by
  unfold shipReduceIdx
  simp [shipRows_idem]

/-- C10: the computed display column list never names a column absent
from the reduced table, so `missing` is always empty and the
warn-and-drop branch is unreachable. -/
theorem display_columns_never_missing (t : Table) (cfg : Option (Rat × Rat))
    (lanes : Option (List Val)) (sel : List Nat) :
    missingOf t cfg lanes sel = [] := by
  unfold missingOf
  rw [List.filter_eq_nil_iff]
  intro c hc
  unfold showColsOf at hc
  rw [List.mem_append] at hc
  have hmem : c ∈ (dfShipOf t cfg lanes).cols := by
    rcases hc with hfix | hbuck
    · exact mem_fixedColsOf _ _ _ hfix
    · rw [cols_dfShipOf]
      exact mem_bucketColsOf _ _ _ hbuck
  simp [hmem]

end ETA
